import Mathlib

/-!
Verification of the metric-aggregation core of `src/core/eval.py`
(functions `append_weighted_average`, `combine_several_weighted_averages`,
`create_metrics_table`, `metric_class_averages`).

Numeric model.  Every numeric cell of a metrics table is an IEEE-754-style
extended number: a finite value, `+inf`, `-inf`, or the not-a-number
sentinel.  `PF` models this with exact rationals in place of binary
floats; the code under verification only adds, multiplies and divides its
inputs, so exact rationals track the float computation faithfully up to
rounding error, on which no claim depends.  The arithmetic on `PF`
follows IEEE/numpy: infinities and NaN propagate through `+` and `*`
(`inf * 0 = nan`, `inf - inf = nan`), division of a nonzero finite value
by zero gives a signed infinity (rationals have no signed zero; numpy's
`x / +0.0` convention is used), `0 / 0 = nan`, `inf / inf = nan`.

Reductions model pandas semantics: `Series.sum` and `Series.mean` use
`skipna=True`, i.e. NaN entries are masked out before reducing
(infinities are kept, since `isna` is false on them); the mean of an
all-NaN column is NaN.
-/

inductive PF where
  | fin : ℚ → PF
  | pinf : PF
  | ninf : PF
  | nan : PF
deriving DecidableEq, Repr

/-- IEEE extended addition: `inf + (-inf) = nan`, NaN absorbs. -/
def PF.add : PF → PF → PF
  | .fin a, .fin b => .fin (a + b)
  | .fin _, .pinf => .pinf
  | .fin _, .ninf => .ninf
  | .pinf, .fin _ => .pinf
  | .ninf, .fin _ => .ninf
  | .pinf, .pinf => .pinf
  | .ninf, .ninf => .ninf
  | .pinf, .ninf => .nan
  | .ninf, .pinf => .nan
  | _, _ => .nan

/-- IEEE extended multiplication: `0 * inf = nan`, NaN absorbs. -/
def PF.mul : PF → PF → PF
  | .fin a, .fin b => .fin (a * b)
  | .fin a, .pinf => if 0 < a then .pinf else if a < 0 then .ninf else .nan
  | .fin a, .ninf => if 0 < a then .ninf else if a < 0 then .pinf else .nan
  | .pinf, .fin b => if 0 < b then .pinf else if b < 0 then .ninf else .nan
  | .ninf, .fin b => if 0 < b then .ninf else if b < 0 then .pinf else .nan
  | .pinf, .pinf => .pinf
  | .pinf, .ninf => .ninf
  | .ninf, .pinf => .ninf
  | .ninf, .ninf => .pinf
  | _, _ => .nan

/-- IEEE extended division (zero denominators behave as `+0.0`):
`a / 0 = sign(a) * inf` for `a ≠ 0`, `0 / 0 = nan`, `a / inf = 0`,
`inf / inf = nan`, NaN absorbs. -/
def PF.div : PF → PF → PF
  | .fin a, .fin b =>
      if b = 0 then (if 0 < a then .pinf else if a < 0 then .ninf else .nan)
      else .fin (a / b)
  | .fin _, .pinf => .fin 0
  | .fin _, .ninf => .fin 0
  | .pinf, .fin b => if b < 0 then .ninf else .pinf
  | .ninf, .fin b => if b < 0 then .pinf else .ninf
  | _, _ => .nan

/-- The finite value of a cell, with every non-finite cell read as `0`.
Used to state what pandas' `skipna` reductions compute on columns whose
entries are finite-or-NaN: such a NaN contributes `0` to a sum. -/
def PF.toRat : PF → ℚ
  | .fin q => q
  | _ => 0

/-- A cell is finite or NaN (no infinity) — the shape of every cell the
measurement collaborator produces (finite metrics, NaN for an undefined
precision/recall/F1). -/
def PF.finOrNaN (x : PF) : Prop := x ≠ PF.pinf ∧ x ≠ PF.ninf

instance (x : PF) : Decidable x.finOrNaN := by
  unfold PF.finOrNaN; infer_instance

/-- `Series.sum` with pandas' default `skipna=True`: NaN entries are
masked to zero before summing. -/
def pdSum (l : List PF) : PF :=
  (l.map fun x => if x = PF.nan then PF.fin 0 else x).foldr PF.add (PF.fin 0)

/-- `Series.mean` with pandas' default `skipna=True`: the masked sum is
divided by the count of non-NaN entries; an all-NaN column has mean NaN. -/
def pdMean (l : List PF) : PF :=
  let k := (l.filter fun x => decide (x ≠ PF.nan)).length
  if k = 0 then PF.nan else PF.div (pdSum l) (PF.fin (k : ℚ))

/-- The finite entries of a column, in order. -/
def finPart (l : List PF) : List ℚ :=
  l.filterMap fun x => match x with | .fin q => some q | _ => none

/-- The numeric columns of the canonical schema
`model_name, note, loss, acc, prec0, prec1, rec0, rec1, f1sc0, f1sc1,
sup0, sup1, mcc` (`metrics_df.columns[2:]` in the source). -/
inductive Col where
  | loss
  | acc
  | prec0
  | prec1
  | rec0
  | rec1
  | f1sc0
  | f1sc1
  | sup0
  | sup1
  | mcc
deriving DecidableEq, Repr, Fintype

/-- The column's name string; `append_weighted_average` dispatches on its
last character. -/
def Col.name : Col → String
  | .loss => "loss"
  | .acc => "acc"
  | .prec0 => "prec0"
  | .prec1 => "prec1"
  | .rec0 => "rec0"
  | .rec1 => "rec1"
  | .f1sc0 => "f1sc0"
  | .f1sc1 => "f1sc1"
  | .sup0 => "sup0"
  | .sup1 => "sup1"
  | .mcc => "mcc"

/-- The canonical column order (the source's `LABELS` list, minus the two
leading non-numeric labels). -/
def Col.all : List Col :=
  [.loss, .acc, .prec0, .prec1, .rec0, .rec1, .f1sc0, .f1sc1, .sup0, .sup1, .mcc]

/-- The `note` cell: a free-form string tag, an integer class id, or the
Python `None` default. -/
inductive Note where
  | str : String → Note
  | int : Int → Note
  | null : Note
deriving DecidableEq, Repr

/-- One MetricRecord row of the canonical schema. -/
structure Row where
  model_name : String
  note : Note
  val : Col → PF

instance : Inhabited Row := ⟨⟨"", Note.null, fun _ => PF.nan⟩⟩

instance : DecidableEq Row := fun a b =>
  decidable_of_iff (a.model_name = b.model_name ∧ a.note = b.note ∧ a.val = b.val)
    (by cases a; cases b; simp)

/-- The cell the `for metric_name in metric_names` loop of
`append_weighted_average` computes for one column: columns whose name ends
in `'0'` (`'1'`) are weighted by `sup0` (`sup1`) and divided by the summed
support, every other column is summed and divided by the row count
(`len(metrics_df)`). -/
def weightedCell (t : List Row) (c : Col) : PF :=
  if (Col.name c).back = '0' then
    PF.div (pdSum (t.map fun r => PF.mul (r.val c) (r.val Col.sup0)))
           (pdSum (t.map fun r => r.val Col.sup0))
  else if (Col.name c).back = '1' then
    PF.div (pdSum (t.map fun r => PF.mul (r.val c) (r.val Col.sup1)))
           (pdSum (t.map fun r => r.val Col.sup1))
  else
    PF.div (pdSum (t.map fun r => r.val c)) (PF.fin ((t.length : ℚ)))

/-- The row `append_weighted_average` builds: `model_name` read from the
row at index 0 (`metrics_df.loc[0, 'model_name']`), `note = "wt_avg"`,
one `weightedCell` per numeric column. -/
def appendedRow (t : List Row) : Row :=
  { model_name := (t.headI).model_name
    note := Note.str "wt_avg"
    val := fun c => weightedCell t c }

/-- `append_weighted_average` (src/core/eval.py:122): the input table with
the weighted-average row concatenated at the end (`ignore_index=True`). -/
def append_weighted_average (t : List Row) : List Row :=
  t ++ [appendedRow t]

/-- One iteration of the loop in `combine_several_weighted_averages`
(0-based index `i`): select the rows with `note == 'wt_avg'` and relabel
their note to `f'{i+1}_wt_avg'`. -/
def relabelRun (i : Nat) (df : List Row) : List Row :=
  (df.filter fun r => decide (r.note = Note.str "wt_avg")).map
    fun r => { r with note := Note.str (toString (i + 1) ++ "_wt_avg") }

/-- The grand-mean row of `combine_several_weighted_averages`: a copy of
the last stacked row (`new_df.iloc[-1]`) whose note is set to `"wt_avg"`
and whose every numeric column is overwritten with the column's
`Series.mean()`. -/
def grandRow (stacked : List Row) : Row :=
  { model_name := (stacked.getLastD default).model_name
    note := Note.str "wt_avg"
    val := fun c => pdMean (stacked.map fun r => r.val c) }

/-- The stacked table `new_df = pd.concat(wt_avg_list)` built by the loop
of `combine_several_weighted_averages`: the relabelled `wt_avg` rows of
every input table, in input order. -/
def stackedRows (dfs : List (List Row)) : List Row :=
  (dfs.enum.map fun p => relabelRun p.1 p.2).flatten

/-- `combine_several_weighted_averages` (src/core/eval.py:172). -/
def combine_several_weighted_averages (dfs : List (List Row)) : List Row :=
  stackedRows dfs ++ [grandRow (stackedRows dfs)]

/-- One row of the cross-model summary table produced by
`create_metrics_table` (schema `model_name, loss, acc, prec, rec, f1sc`).
The source column `rec` is spelled `recl` here because `rec` is reserved
in Lean. -/
structure SummaryRow where
  model_name : String
  loss : PF
  acc : PF
  prec : PF
  recl : PF
  f1sc : PF
deriving DecidableEq

instance : Inhabited SummaryRow :=
  ⟨⟨"", PF.nan, PF.nan, PF.nan, PF.nan, PF.nan⟩⟩

/-- `create_metrics_table` (src/core/eval.py:196): concatenate the input
tables, keep the `note == "wt_avg"` rows, and per kept row copy
`model_name`/`loss`/`acc` and macro-average the two classes of
`prec`/`rec`/`f1sc`. -/
def create_metrics_table (dfs : List (List Row)) : List SummaryRow :=
  ((dfs.flatten).filter fun r => decide (r.note = Note.str "wt_avg")).map fun r =>
    { model_name := r.model_name
      loss := r.val Col.loss
      acc := r.val Col.acc
      prec := PF.div (PF.add (r.val Col.prec0) (r.val Col.prec1)) (PF.fin 2)
      recl := PF.div (PF.add (r.val Col.rec0) (r.val Col.rec1)) (PF.fin 2)
      f1sc := PF.div (PF.add (r.val Col.f1sc0) (r.val Col.f1sc1)) (PF.fin 2) }

/-- Modelled from the claim's words (C5), for comparison with
`create_metrics_table`: one output row per row whose note equals
`"wt_avg"`, with `model_name`, `loss`, `acc` copied unchanged and
`prec = (prec0 + prec1) / 2`, `rec = (rec0 + rec1) / 2`,
`f1sc = (f1sc0 + f1sc1) / 2`. -/
def specSummaryRow (r : Row) : SummaryRow :=
  { model_name := r.model_name
    loss := r.val Col.loss
    acc := r.val Col.acc
    prec := PF.div (PF.add (r.val Col.prec0) (r.val Col.prec1)) (PF.fin 2)
    recl := PF.div (PF.add (r.val Col.rec0) (r.val Col.rec1)) (PF.fin 2)
    f1sc := PF.div (PF.add (r.val Col.f1sc0) (r.val Col.f1sc1)) (PF.fin 2) }

/-- Modelled from the claim's words (C5): keep exactly the rows whose note
equals `"wt_avg"`, in input order, and build one `specSummaryRow` each. -/
def create_metrics_table_spec (dfs : List (List Row)) : List SummaryRow :=
  dfs.flatten.filterMap fun r =>
    if r.note = Note.str "wt_avg" then some (specSummaryRow r) else none

/-- The columns of the class-expanded table built by
`metric_class_averages` after the trailing class digit is stripped
(`prec0/prec1 → prec`, `sup0/sup1 → sup`, scalar columns unchanged).
The source column `rec` is spelled `recl` (reserved word). -/
inductive CCol where
  | loss
  | acc
  | prec
  | recl
  | f1sc
  | sup
  | mcc
deriving DecidableEq, Repr, Fintype

/-- The stripped column's name string. -/
def CCol.name : CCol → String
  | .loss => "loss"
  | .acc => "acc"
  | .prec => "prec"
  | .recl => "rec"
  | .f1sc => "f1sc"
  | .sup => "sup"
  | .mcc => "mcc"

def CCol.all : List CCol := [.loss, .acc, .prec, .recl, .f1sc, .sup, .mcc]

/-- The source's `remove_end_digit` helper (src/core/eval.py:237). -/
def remove_end_digit (x : String) : String :=
  if x.length = 0 then x
  else if x.back.isDigit then x.dropRight 1 else x

/-- Which canonical column the class-0 view (`columns_0`, names not ending
in `'1'`, trailing digit stripped) reads each stripped column from. -/
def stripTo0 : CCol → Col
  | .loss => .loss
  | .acc => .acc
  | .prec => .prec0
  | .recl => .rec0
  | .f1sc => .f1sc0
  | .sup => .sup0
  | .mcc => .mcc

/-- Which canonical column the class-1 view (`columns_1`, names not ending
in `'0'`, trailing digit stripped) reads each stripped column from. -/
def stripTo1 : CCol → Col
  | .loss => .loss
  | .acc => .acc
  | .prec => .prec1
  | .recl => .rec1
  | .f1sc => .f1sc1
  | .sup => .sup1
  | .mcc => .mcc

/-- One row of the class-expanded table. -/
structure CRow where
  model_name : String
  note : Note
  val : CCol → PF

instance : Inhabited CRow := ⟨⟨"", Note.null, fun _ => PF.nan⟩⟩

/-- `support_ratio = (support_values['sup0'] / support_values['sup1']).item()`
(src/core/eval.py:235). -/
def support_ratio (r : Row) : PF :=
  PF.div (r.val Col.sup0) (r.val Col.sup1)

/-- The numeric branch of the inner `weighted_avg` helper
(src/core/eval.py:257): from the two stacked values `(v0, v1)` of one
column it returns the pair
`(macro_avg, weighted_avg) = ((v0 + v1) / 2, (v0 * ratio + v1) / (1 + ratio))`
(the source returns them as a two-element series; its non-numeric branch,
which copies `model_name` into both rows, is modelled by the `model_name`
field of the derived rows below). -/
def weighted_avg (v0 v1 ratio : PF) : PF × PF :=
  (PF.div (PF.add v0 v1) (PF.fin 2),
   PF.div (PF.add (PF.mul v0 ratio) v1) (PF.add (PF.fin 1) ratio))

/-- The class-0 view of a summary row: columns not ending in `'1'`,
trailing digit stripped, `note = 0`. -/
def class0Row (r : Row) : CRow :=
  { model_name := r.model_name
    note := Note.int 0
    val := fun c => r.val (stripTo0 c) }

/-- The class-1 view of a summary row: columns not ending in `'0'`,
trailing digit stripped, `note = 1`. -/
def class1Row (r : Row) : CRow :=
  { model_name := r.model_name
    note := Note.int 1
    val := fun c => r.val (stripTo1 c) }

/-- `metric_class_averages` (src/core/eval.py:217) on its single-row input
(`.item()` requires exactly one row): the class-0 view, the class-1 view,
the macro-average row and the support-weighted-average row, in that order
(the `apply` writes the pair `(macro, weighted)` into two rows whose
notes are then overwritten with `'macro_avg'` / `'wt_avg'`). -/
def metric_class_averages (r : Row) : List CRow :=
  [class0Row r, class1Row r,
   { model_name := r.model_name
     note := Note.str "macro_avg"
     val := fun c =>
       (weighted_avg ((class0Row r).val c) ((class1Row r).val c) (support_ratio r)).1 },
   { model_name := r.model_name
     note := Note.str "wt_avg"
     val := fun c =>
       (weighted_avg ((class0Row r).val c) ((class1Row r).val c) (support_ratio r)).2 }]

/-!
Store model.  The purity claim (no input table is mutated) is about
pandas object identity, so the four operations are re-traced here against
an explicit store of tables: each pandas call that builds a new frame
(`.copy()`, boolean-mask indexing, `pd.concat`, `apply`, `reset_index`)
allocates a fresh slot, and each in-place column assignment
(`frame[col] = ...`) writes to the slot of the frame it is called on.
The theorems show every write lands on a slot allocated inside the
operation itself, so the slots that existed before the call are unchanged.
-/

/-- A stored frame: a canonical-schema table, a cross-model summary
table, a class-expanded table, or the two-column `support_values` copy. -/
inductive Tab where
  | full : List Row → Tab
  | summary : List SummaryRow → Tab
  | cls : List CRow → Tab
  | pairs : List (PF × PF) → Tab

instance : Inhabited Tab := ⟨Tab.full []⟩

/-- The store of live frames; a frame's id is its index. -/
abbrev Heap := List Tab

def readTab (h : Heap) (i : Nat) : Tab := h.getD i (Tab.full [])

/-- Read a canonical-schema frame (the shape every modelled id has when
it is read). -/
def readFull (h : Heap) (i : Nat) : List Row :=
  match readTab h i with
  | .full t => t
  | _ => []

/-- Building a new frame: the fresh slot's id is the old length. -/
def allocTab (h : Heap) (t : Tab) : Heap × Nat := (h ++ [t], h.length)

/-- An in-place assignment to the frame at slot `i`. -/
def writeTab (h : Heap) (i : Nat) (t : Tab) : Heap := h.set i t

/-- `append_weighted_average` re-traced on the store:
`metrics_df = metrics_df.copy()` allocates, the `weighted_avgs` frame
(`pd.Series(...).to_frame().transpose()` plus its column relabelling) is
fresh, and `pd.concat` allocates the returned frame. -/
def append_weighted_average_st (h : Heap) (i : Nat) : Heap × Nat :=
  let p1 := allocTab h (Tab.full (readFull h i))
  let p2 := allocTab p1.1 (Tab.full [appendedRow (readFull p1.1 p1.2)])
  allocTab p2.1 (Tab.full (readFull p2.1 p1.2 ++ readFull p2.1 p2.2))

/-- One loop iteration of `combine_several_weighted_averages` on the
store: `wt_avg = df[df['note'] == 'wt_avg']` allocates a boolean-mask
copy and `wt_avg['note'] = f'{i+1}_wt_avg'` writes in place to that fresh
frame; the fresh id is appended to `wt_avg_list`. -/
def combine_step (acc : Heap × List Nat) (p : Nat × Nat) : Heap × List Nat :=
  let q := allocTab acc.1
    (Tab.full ((readFull acc.1 p.2).filter fun r => decide (r.note = Note.str "wt_avg")))
  let h2 := writeTab q.1 q.2
    (Tab.full ((readFull q.1 q.2).map
      fun r => { r with note := Note.str (toString (p.1 + 1) ++ "_wt_avg") }))
  (h2, acc.2 ++ [q.2])

/-- `combine_several_weighted_averages` re-traced on the store: the loop,
then `pd.concat(wt_avg_list)` allocates, then the final `pd.concat` with
the grand-mean row (built from a `.copy()` of the last row, a plain
series) allocates the returned frame. -/
def combine_several_weighted_averages_st (h : Heap) (ids : List Nat) : Heap × Nat :=
  let s := ids.enum.foldl combine_step (h, [])
  let stacked := (s.2.map fun j => readFull s.1 j).flatten
  let q1 := allocTab s.1 (Tab.full stacked)
  allocTab q1.1 (Tab.full (readFull q1.1 q1.2 ++ [grandRow (readFull q1.1 q1.2)]))

/-- `create_metrics_table` re-traced on the store: `pd.concat` allocates,
the boolean-mask selection allocates, `metrics[['model_name', 'loss',
'acc']].copy()` allocates the summary frame, the three column assignments
(`new_metrics['prec'] = ...` etc., modelled as one in-place write of the
three derived columns) write to that fresh frame, and `reset_index`
allocates the returned frame. -/
def create_metrics_table_st (h : Heap) (ids : List Nat) : Heap × Nat :=
  let q1 := allocTab h (Tab.full ((ids.map fun i => readFull h i).flatten))
  let kept := (readFull q1.1 q1.2).filter fun r => decide (r.note = Note.str "wt_avg")
  let q2 := allocTab q1.1 (Tab.full kept)
  let q3 := allocTab q2.1 (Tab.summary (kept.map fun r =>
    { model_name := r.model_name, loss := r.val Col.loss, acc := r.val Col.acc
      prec := PF.nan, recl := PF.nan, f1sc := PF.nan }))
  let h4 := writeTab q3.1 q3.2 (Tab.summary (create_metrics_table (ids.map fun i => readFull h i)))
  allocTab h4 (Tab.summary (create_metrics_table (ids.map fun i => readFull h i)))

/-- `metric_class_averages` re-traced on the store on its single-row
input: the `support_values` `.copy()` allocates, each class view
`metric_df[columns].copy()` allocates and its `['note'] = 0/1` assignment
writes in place to the fresh view, `pd.concat` allocates, the `apply`
result is a fresh frame whose immediately-overwritten numeric note
placeholders are not modelled, its `['note'] = ...` assignment writes in
place, and the final `pd.concat` allocates the returned frame. -/
def metric_class_averages_st (h : Heap) (i : Nat) : Heap × Nat :=
  let r := (readFull h i).headI
  let q1 := allocTab h (Tab.pairs [(r.val Col.sup0, r.val Col.sup1)])
  let q2 := allocTab q1.1 (Tab.cls [{ class0Row r with note := r.note }])
  let h3 := writeTab q2.1 q2.2 (Tab.cls [class0Row r])
  let q4 := allocTab h3 (Tab.cls [{ class1Row r with note := r.note }])
  let h5 := writeTab q4.1 q4.2 (Tab.cls [class1Row r])
  let q6 := allocTab h5 (Tab.cls [class0Row r, class1Row r])
  let q7 := allocTab q6.1 (Tab.cls
    [{ (metric_class_averages r).getD 2 default with note := Note.null },
     { (metric_class_averages r).getD 3 default with note := Note.null }])
  let h8 := writeTab q7.1 q7.2 (Tab.cls
    [(metric_class_averages r).getD 2 default, (metric_class_averages r).getD 3 default])
  allocTab h8 (Tab.cls (metric_class_averages r))

/-!
Concrete tables used as evaluation witnesses.  `exFoldA`/`exFoldB` are
the spec's concrete two-fold scenario (§8): fold A has `prec0 = 1.0,
sup0 = 10, prec1 = 0.5, sup1 = 2`, fold B has `prec0 = 0.8, sup0 = 5,
prec1 = 0.9, sup1 = 8`.
-/

/-- Build a row from its eleven numeric cells, in canonical order. -/
def mkRow (name : String) (nt : Note) (ls ac p0 p1 r0 r1 f0 f1 s0 s1 mc : PF) : Row :=
  { model_name := name
    note := nt
    val := fun c => match c with
      | .loss => ls
      | .acc => ac
      | .prec0 => p0
      | .prec1 => p1
      | .rec0 => r0
      | .rec1 => r1
      | .f1sc0 => f0
      | .f1sc1 => f1
      | .sup0 => s0
      | .sup1 => s1
      | .mcc => mc }

def exFoldA : Row :=
  mkRow "Net" (Note.str "fold0") (PF.fin 1) (PF.fin (7/10))
    (PF.fin 1) (PF.fin (1/2)) (PF.fin (3/5)) (PF.fin (2/5))
    (PF.fin (3/4)) (PF.fin (9/20)) (PF.fin 10) (PF.fin 2) (PF.fin (1/5))

def exFoldB : Row :=
  mkRow "Net" (Note.str "fold1") (PF.fin 2) (PF.fin (4/5))
    (PF.fin (4/5)) (PF.fin (9/10)) (PF.fin (1/2)) (PF.fin (7/10))
    (PF.fin (13/20)) (PF.fin (4/5)) (PF.fin 5) (PF.fin 8) (PF.fin (3/10))

def exTable : List Row := [exFoldA, exFoldB]

/-- The all-finite cell valuation of the example rows. -/
def exV (r : Row) (c : Col) : ℚ := (r.val c).toRat

/-- A two-row table whose second row has a NaN `loss` (and NaN class-1
cells, as for a fold in which class 1 is absent). -/
def exNanRow : Row :=
  mkRow "Net" (Note.str "fold1") PF.nan (PF.fin (4/5))
    (PF.fin (4/5)) PF.nan (PF.fin (1/2)) PF.nan
    (PF.fin (13/20)) PF.nan (PF.fin 5) (PF.fin 0) (PF.fin (3/10))

def exNanTable : List Row := [exFoldA, exNanRow]

/-- A two-row table with two distinct model names (claim C8's scenario). -/
def exMixedTable : List Row :=
  [mkRow "NetA" (Note.str "fold0") (PF.fin 1) (PF.fin (7/10))
    (PF.fin 1) (PF.fin (1/2)) (PF.fin (3/5)) (PF.fin (2/5))
    (PF.fin (3/4)) (PF.fin (9/20)) (PF.fin 10) (PF.fin 2) (PF.fin (1/5)),
   mkRow "NetB" (Note.str "fold0") (PF.fin 2) (PF.fin (4/5))
    (PF.fin (4/5)) (PF.fin (9/10)) (PF.fin (1/2)) (PF.fin (7/10))
    (PF.fin (13/20)) (PF.fin (4/5)) (PF.fin 5) (PF.fin 8) (PF.fin (3/10))]

/-- A table whose every row has `sup1 = 0` (claim C4's scenario). -/
def exZeroSupTable : List Row :=
  [mkRow "Net" (Note.str "fold0") (PF.fin 1) (PF.fin (7/10))
    (PF.fin 1) PF.nan (PF.fin (3/5)) PF.nan
    (PF.fin (3/4)) PF.nan (PF.fin 10) (PF.fin 0) (PF.fin (1/5)),
   mkRow "Net" (Note.str "fold1") (PF.fin 2) (PF.fin (4/5))
    (PF.fin (4/5)) PF.nan (PF.fin (1/2)) PF.nan
    (PF.fin (13/20)) PF.nan (PF.fin 5) (PF.fin 0) (PF.fin (3/10))]

/-- Two single-run tables, each holding one `wt_avg` row (claim C3's
scenario). -/
def exWtRow1 : Row :=
  mkRow "Net" (Note.str "wt_avg") (PF.fin 1) (PF.fin (7/10))
    (PF.fin 1) (PF.fin (1/2)) (PF.fin (3/5)) (PF.fin (2/5))
    (PF.fin (3/4)) (PF.fin (9/20)) (PF.fin 10) (PF.fin 2) (PF.fin (1/5))

def exWtRow2 : Row :=
  mkRow "Net" (Note.str "wt_avg") (PF.fin 2) (PF.fin (4/5))
    (PF.fin (4/5)) (PF.fin (9/10)) (PF.fin (1/2)) (PF.fin (7/10))
    (PF.fin (13/20)) (PF.fin (4/5)) (PF.fin 5) (PF.fin 8) (PF.fin (3/10))

def exRunTables : List (List Row) := [[exFoldA, exWtRow1], [exFoldB, exWtRow2]]

/-- A single-model-summary row with `sup0 = sup1 = 4` (claim C7's
scenario). -/
def exBalancedRow : Row :=
  mkRow "Net" (Note.str "wt_avg") (PF.fin 1) (PF.fin (7/10))
    (PF.fin 1) (PF.fin (1/2)) (PF.fin (3/5)) (PF.fin (2/5))
    (PF.fin (3/4)) (PF.fin (9/20)) (PF.fin 4) (PF.fin 4) (PF.fin (1/5))

/-- A single-model-summary row with `sup0 = 5`, `sup1 = 0` (claim C6's
scenario). -/
def exZeroSup1Row : Row :=
  mkRow "Net" (Note.str "wt_avg") (PF.fin 1) (PF.fin (7/10))
    (PF.fin 1) (PF.fin (1/2)) (PF.fin (3/5)) (PF.fin (2/5))
    (PF.fin (3/4)) (PF.fin (9/20)) (PF.fin 5) (PF.fin 0) (PF.fin (1/5))

/-- A store holding one table, for the frame witnesses. -/
def exHeap : Heap := [Tab.full exTable, Tab.full exRunTables.headI]

/-- Modelled from the claim's words (C1), for comparison with
`appendedRow`: `note = "wt_avg"`, `model_name` copied from the first row,
and—reading every cell through an all-finite valuation `v`—each column
ending in `'0'` (`'1'`) set to `sum(value_i * sup0_i) / sum(sup0_i)`
(resp. `sup1`), every other column set to the unweighted arithmetic mean
over the `N` rows. -/
def specAppendedRow (t : List Row) (v : Row → Col → ℚ) : Row :=
  { model_name := (t.headI).model_name
    note := Note.str "wt_avg"
    val := fun c =>
      if (Col.name c).back = '0' then
        PF.div (PF.fin ((t.map fun r => v r c * v r Col.sup0).sum))
               (PF.fin ((t.map fun r => v r Col.sup0).sum))
      else if (Col.name c).back = '1' then
        PF.div (PF.fin ((t.map fun r => v r c * v r Col.sup1).sum))
               (PF.fin ((t.map fun r => v r Col.sup1).sum))
      else
        PF.fin (((t.map fun r => v r c).sum) / (t.length : ℚ)) }

/-- Modelled from the claim's words (C3): the extracted `wt_avg` rows (one
per run, given by `rs`) with `note` relabelled to `"{run_index}_wt_avg"`
using the 1-based position. -/
def specRelabeledRuns (rs : List Row) : List Row :=
  rs.enum.map fun p => { p.2 with note := Note.str (toString (p.1 + 1) ++ "_wt_avg") }

/-- Modelled from the claim's words (C3): the final row, `note = "wt_avg"`,
`model_name` copied from the last stacked row, every numeric column the
unweighted arithmetic mean of the `k` extracted values (read through an
all-finite valuation `v`). -/
def specGrandRow (rs : List Row) (v : Row → Col → ℚ) : Row :=
  { model_name := (rs.getLastD default).model_name
    note := Note.str "wt_avg"
    val := fun c => PF.fin (((rs.map fun r => v r c).sum) / (rs.length : ℚ)) }

/-- A `wt_avg` row whose `loss` is NaN (a run whose loss was undefined),
for the grand-mean NaN-skipping counterexample. -/
def exNanWtRow : Row :=
  mkRow "Net" (Note.str "wt_avg") PF.nan (PF.fin (4/5))
    (PF.fin (4/5)) (PF.fin (9/10)) (PF.fin (1/2)) (PF.fin (7/10))
    (PF.fin (13/20)) (PF.fin (4/5)) (PF.fin 5) (PF.fin 8) (PF.fin (3/10))

def exNanRunTables : List (List Row) := [[exWtRow1], [exNanWtRow]]

/-- A `wt_avg` row with the same `prec0`/`prec1` as `exWtRow1` but
different `sup0`/`sup1` (claim C5's support-independence scenario). -/
def exWtRow2b : Row :=
  mkRow "Net2" (Note.str "wt_avg") (PF.fin 3) (PF.fin (3/5))
    (PF.fin 1) (PF.fin (1/2)) (PF.fin (2/5)) (PF.fin (3/5))
    (PF.fin (1/2)) (PF.fin (11/20)) (PF.fin 7) (PF.fin 3) (PF.fin (2/5))

/-- The store-extension relation: `h` is at least as long as `h0` and
agrees with it on every slot that already existed.  Each traced operation
only allocates fresh slots and writes to slots it allocated itself, so it
extends the store it was given. -/
def HExt (h0 h : Heap) : Prop :=
  h0.length ≤ h.length ∧ ∀ n, n < h0.length → readTab h n = readTab h0 n

/-!
Helper lemmas: evaluation of the pandas reductions on finite-or-NaN
columns, and small list facts used by the claim theorems.
-/

theorem PF.add_fin (a b : ℚ) : PF.add (PF.fin a) (PF.fin b) = PF.fin (a + b) := rfl

theorem PF.div_fin (a b : ℚ) (hb : b ≠ 0) :
    PF.div (PF.fin a) (PF.fin b) = PF.fin (a / b) := by
  simp [PF.div, hb]

theorem pdSum_nil : pdSum [] = PF.fin 0 := rfl

theorem pdSum_cons (x : PF) (l : List PF) :
    pdSum (x :: l) = PF.add (if x = PF.nan then PF.fin 0 else x) (pdSum l) := rfl

/-- On a finite-or-NaN column, the `skipna` sum is the exact sum with every
NaN read as zero. -/
theorem pdSum_finOrNaN (l : List PF) (h : ∀ x ∈ l, x.finOrNaN) :
    pdSum l = PF.fin ((l.map PF.toRat).sum) := by
  induction l with
  | nil => rfl
  | cons x l ih =>
    have hx := h x (List.mem_cons_self x l)
    have hl := ih fun y hy => h y (List.mem_cons_of_mem x hy)
    rw [pdSum_cons, hl]
    cases x with
    | fin q => simp [PF.add, PF.toRat]
    | pinf => exact absurd rfl hx.1
    | ninf => exact absurd rfl hx.2
    | nan => simp [PF.add, PF.toRat]

theorem pdSum_map_fin (l : List ℚ) : pdSum (l.map PF.fin) = PF.fin l.sum := by
  induction l with
  | nil => rfl
  | cons a l ih =>
    rw [List.map_cons, pdSum_cons, if_neg (by simp), ih, PF.add_fin, List.sum_cons]

theorem finPart_map_fin (l : List ℚ) : finPart (l.map PF.fin) = l := by
  induction l with
  | nil => rfl
  | cons a l ih =>
    show a :: finPart (l.map PF.fin) = a :: l
    rw [ih]

/-- On a finite-or-NaN column, the non-NaN count is the number of finite
entries. -/
theorem filter_length_finPart (l : List PF) (h : ∀ x ∈ l, x.finOrNaN) :
    (l.filter fun x => decide (x ≠ PF.nan)).length = (finPart l).length := by
  induction l with
  | nil => rfl
  | cons x l ih =>
    have hx := h x (List.mem_cons_self x l)
    have hl := ih fun y hy => h y (List.mem_cons_of_mem x hy)
    cases x with
    | fin q => simp [List.filter_cons, finPart, List.filterMap_cons] at *; omega
    | pinf => exact absurd rfl hx.1
    | ninf => exact absurd rfl hx.2
    | nan => simp [List.filter_cons, finPart, List.filterMap_cons] at *; exact hl

/-- On a finite-or-NaN column, the NaN-as-zero sum is the sum of the
finite entries. -/
theorem toRat_sum_finPart (l : List PF) (h : ∀ x ∈ l, x.finOrNaN) :
    (l.map PF.toRat).sum = (finPart l).sum := by
  induction l with
  | nil => rfl
  | cons x l ih =>
    have hx := h x (List.mem_cons_self x l)
    have hl := ih fun y hy => h y (List.mem_cons_of_mem x hy)
    cases x with
    | fin q => simp [finPart, List.filterMap_cons, PF.toRat] at *; rw [hl]
    | pinf => exact absurd rfl hx.1
    | ninf => exact absurd rfl hx.2
    | nan => simpa [finPart, List.filterMap_cons, PF.toRat] using hl

/-- `Series.mean` on a finite-or-NaN column: NaN entries are dropped from
both the sum and the count; the mean is NaN exactly when no finite entry
exists. -/
theorem pdMean_finOrNaN (l : List PF) (h : ∀ x ∈ l, x.finOrNaN) :
    pdMean l = if (finPart l).length = 0 then PF.nan
               else PF.fin ((finPart l).sum / ((finPart l).length : ℚ)) := by
  rw [pdMean, filter_length_finPart l h]
  by_cases hk : (finPart l).length = 0
  · simp [hk]
  · rw [if_neg hk, if_neg hk, pdSum_finOrNaN l h, toRat_sum_finPart l h,
        PF.div_fin _ _ (by exact_mod_cast hk)]

theorem pdMean_map_fin (l : List ℚ) (hl : l ≠ []) :
    pdMean (l.map PF.fin) = PF.fin (l.sum / (l.length : ℚ)) := by
  have hfin : ∀ x ∈ l.map PF.fin, x.finOrNaN := by
    intro x hx
    obtain ⟨q, _, rfl⟩ := List.mem_map.mp hx
    exact ⟨by simp, by simp⟩
  rw [pdMean_finOrNaN _ hfin, finPart_map_fin,
      if_neg (fun h => hl (List.eq_nil_of_length_eq_zero h))]

theorem getLastD_concat' {α : Type} (l : List α) (a : α) (d : α) :
    (l ++ [a]).getLastD d = a := List.getLastD_concat d a l

/-- `getLastD` commutes with `map` on a nonempty list (any defaults). -/
theorem getLastD_map_cons {α β : Type} :
    ∀ (l : List α) (x : α) (f : α → β) (d : β) (e : α),
      ((x :: l).map f).getLastD d = f ((x :: l).getLastD e) := by
  intro l
  induction l with
  | nil => intro x f d e; rfl
  | cons y l ih => intro x f d e; exact ih y f d e

theorem weightedCell_suffix0 (t : List Row) (c : Col) (hc : (Col.name c).back = '0') :
    weightedCell t c = PF.div (pdSum (t.map fun r => PF.mul (r.val c) (r.val Col.sup0)))
                              (pdSum (t.map fun r => r.val Col.sup0)) := by
  rw [weightedCell, if_pos hc]

theorem weightedCell_suffix1 (t : List Row) (c : Col) (hc : (Col.name c).back = '1') :
    weightedCell t c = PF.div (pdSum (t.map fun r => PF.mul (r.val c) (r.val Col.sup1)))
                              (pdSum (t.map fun r => r.val Col.sup1)) := by
  rw [weightedCell, if_neg (by rw [hc]; decide), if_pos hc]

theorem weightedCell_scalar (t : List Row) (c : Col)
    (h0 : (Col.name c).back ≠ '0') (h1 : (Col.name c).back ≠ '1') :
    weightedCell t c = PF.div (pdSum (t.map fun r => r.val c)) (PF.fin ((t.length : ℚ))) := by
  rw [weightedCell, if_neg h0, if_neg h1]

theorem mul_fin_zero_or_nan (x : PF) :
    PF.mul x (PF.fin 0) = PF.fin 0 ∨ PF.mul x (PF.fin 0) = PF.nan := by
  cases x with
  | fin q => exact Or.inl (by simp [PF.mul])
  | pinf => exact Or.inr (by simp [PF.mul])
  | ninf => exact Or.inr (by simp [PF.mul])
  | nan => exact Or.inr rfl

theorem pdSum_zero_or_nan (l : List PF) (h : ∀ x ∈ l, x = PF.fin 0 ∨ x = PF.nan) :
    pdSum l = PF.fin 0 := by
  induction l with
  | nil => rfl
  | cons x l ih =>
    have hx := h x (List.mem_cons_self x l)
    have hl := ih fun y hy => h y (List.mem_cons_of_mem x hy)
    rcases hx with hx | hx <;> subst hx <;> rw [pdSum_cons, hl] <;> simp [PF.add]

theorem weightedCell_sup1_zero (t : List Row) (h0 : ∀ r ∈ t, r.val Col.sup1 = PF.fin 0)
    (c : Col) (hc : (Col.name c).back = '1') : weightedCell t c = PF.nan := by
  rw [weightedCell_suffix1 t c hc]
  have hden : pdSum (t.map fun r => r.val Col.sup1) = PF.fin 0 := by
    apply pdSum_zero_or_nan
    intro x hx
    obtain ⟨r, hr, rfl⟩ := List.mem_map.mp hx
    exact Or.inl (h0 r hr)
  have hnum : pdSum (t.map fun r => PF.mul (r.val c) (r.val Col.sup1)) = PF.fin 0 := by
    apply pdSum_zero_or_nan
    intro x hx
    obtain ⟨r, hr, rfl⟩ := List.mem_map.mp hx
    rw [h0 r hr]
    exact mul_fin_zero_or_nan _
  rw [hnum, hden]
  simp [PF.div]

theorem map_val_eq_map_fin (t : List Row) (v : Row → Col → ℚ)
    (hv : ∀ r ∈ t, ∀ c, r.val c = PF.fin (v r c)) (c : Col) :
    (t.map fun r => r.val c) = (t.map fun r => v r c).map PF.fin := by
  rw [List.map_map]
  exact List.map_congr_left fun r hr => hv r hr c

theorem map_mulsup_eq_map_fin (t : List Row) (v : Row → Col → ℚ)
    (hv : ∀ r ∈ t, ∀ c, r.val c = PF.fin (v r c)) (c s : Col) :
    (t.map fun r => PF.mul (r.val c) (r.val s))
      = (t.map fun r => v r c * v r s).map PF.fin := by
  rw [List.map_map]
  exact List.map_congr_left fun r hr => by rw [hv r hr c, hv r hr s]; rfl

theorem length_cast_ne_zero (t : List Row) (ht : t ≠ []) : ((t.length : ℚ)) ≠ 0 := by
  exact_mod_cast fun h => ht (List.length_eq_zero.mp h)

theorem Row.eq_of_fields (a b : Row) (h1 : a.model_name = b.model_name)
    (h2 : a.note = b.note) (h3 : ∀ c, a.val c = b.val c) : a = b := by
  cases a with
  | mk m n vv =>
    cases b with
    | mk m' n' vv' =>
      dsimp at h1 h2 h3
      subst h1
      subst h2
      rw [funext h3]

/-- Claim C1: on a table of `N` fold rows with all-finite cells (valuation
`v`), `append_weighted_average` returns the table with exactly one row
appended, whose `note` is `"wt_avg"`, whose `model_name` is copied from
the first row, and whose cells follow the spec's formulas: columns ending
in `'0'` (`'1'`) get `sum(value_i * sup0_i) / sum(sup0_i)` (resp. `sup1`),
every other metric column gets the unweighted arithmetic mean over the
`N` rows. -/
theorem C1_append_weighted_average_correct (t : List Row) (ht : t ≠ [])
    (v : Row → Col → ℚ) (hv : ∀ r ∈ t, ∀ c, r.val c = PF.fin (v r c)) :
    append_weighted_average t = t ++ [specAppendedRow t v] := by
  have hval : ∀ c, (appendedRow t).val c = (specAppendedRow t v).val c := by
    intro c
    show weightedCell t c = (specAppendedRow t v).val c
    simp only [specAppendedRow]
    by_cases h0 : (Col.name c).back = '0'
    · rw [weightedCell_suffix0 t c h0, if_pos h0, map_mulsup_eq_map_fin t v hv c Col.sup0,
          map_val_eq_map_fin t v hv Col.sup0, pdSum_map_fin, pdSum_map_fin]
    · by_cases h1 : (Col.name c).back = '1'
      · rw [weightedCell_suffix1 t c h1, if_neg h0, if_pos h1,
            map_mulsup_eq_map_fin t v hv c Col.sup1,
            map_val_eq_map_fin t v hv Col.sup1, pdSum_map_fin, pdSum_map_fin]
      · rw [weightedCell_scalar t c h0 h1, if_neg h0, if_neg h1,
            map_val_eq_map_fin t v hv c, pdSum_map_fin,
            PF.div_fin _ _ (length_cast_ne_zero t ht)]
  show t ++ [appendedRow t] = t ++ [specAppendedRow t v]
  rw [Row.eq_of_fields (appendedRow t) (specAppendedRow t v) rfl rfl hval]

/-- Evaluation witness for C1 on the spec's concrete two-fold scenario. -/
theorem C1_witness :
    (exTable ≠ [] ∧ ∀ r ∈ exTable, ∀ c, r.val c = PF.fin (exV r c)) ∧
    append_weighted_average exTable = exTable ++ [specAppendedRow exTable exV] := by
  have hv : ∀ r ∈ exTable, ∀ c, r.val c = PF.fin (exV r c) := by
    intro r hr
    fin_cases hr <;> intro c <;> cases c <;> rfl
  exact ⟨⟨by simp [exTable], hv⟩,
    C1_append_weighted_average_correct exTable (by simp [exTable]) exV hv⟩

/-- Claim C4: if every row's `sup1` is `0`, the appended row's `prec1`,
`rec1` and `f1sc1` are the NaN sentinel (the zero support sum makes the
weighted average `0 / 0`); no error path exists. -/
theorem C4_zero_sup1_gives_nan (t : List Row) (_ht : t ≠ [])
    (h0 : ∀ r ∈ t, r.val Col.sup1 = PF.fin 0) :
    ((append_weighted_average t).getLastD default).val Col.prec1 = PF.nan ∧
    ((append_weighted_average t).getLastD default).val Col.rec1 = PF.nan ∧
    ((append_weighted_average t).getLastD default).val Col.f1sc1 = PF.nan := by
  rw [append_weighted_average, getLastD_concat']
  exact ⟨weightedCell_sup1_zero t h0 Col.prec1 (by decide),
         weightedCell_sup1_zero t h0 Col.rec1 (by decide),
         weightedCell_sup1_zero t h0 Col.f1sc1 (by decide)⟩

/-- Evaluation witness for C4 on a concrete table whose two rows both have
`sup1 = 0`. -/
theorem C4_witness :
    (exZeroSupTable ≠ [] ∧ ∀ r ∈ exZeroSupTable, r.val Col.sup1 = PF.fin 0) ∧
    ((append_weighted_average exZeroSupTable).getLastD default).val Col.prec1 = PF.nan := by
  have h0 : ∀ r ∈ exZeroSupTable, r.val Col.sup1 = PF.fin 0 := by
    intro r hr
    fin_cases hr <;> rfl
  exact ⟨⟨by simp [exZeroSupTable], h0⟩,
    (C4_zero_sup1_gives_nan exZeroSupTable (by simp [exZeroSupTable]) h0).1⟩

/-- Claim C8 is false on the code: on a table holding rows of two distinct
models, `append_weighted_average` raises no error; it returns a row whose
`model_name` is taken from the first row and whose `loss` blends both
models' rows (`(1 + 2) / 2 = 3/2`). -/
theorem C8_counterexample :
    exMixedTable.map Row.model_name = ["NetA", "NetB"] ∧
    ((append_weighted_average exMixedTable).getLastD default).model_name = "NetA" ∧
    ((append_weighted_average exMixedTable).getLastD default).val Col.loss = PF.fin (3/2) ∧
    (append_weighted_average exMixedTable).length = 3 := by
  refine ⟨rfl, rfl, ?_, rfl⟩
  show weightedCell exMixedTable Col.loss = PF.fin (3/2)
  rw [weightedCell_scalar _ _ (by decide) (by decide),
      show exMixedTable.map (fun r => r.val Col.loss) = [PF.fin 1, PF.fin 2] from rfl,
      show pdSum [PF.fin 1, PF.fin 2] = PF.fin (1 + (2 + 0)) from rfl,
      PF.div_fin _ _ (by norm_num [exMixedTable])]
  congr 1
  norm_num [exMixedTable]

/-- Claim C8 amended: `append_weighted_average` performs no model-name
validation; whatever the rows' model names, it returns the input plus one
row whose `model_name` is the first row's and whose scalar cells average
across all rows. -/
theorem C8_amended_no_validation (t : List Row) (_ht : t ≠ []) :
    ((append_weighted_average t).getLastD default).model_name = (t.headI).model_name ∧
    (append_weighted_average t).length = t.length + 1 ∧
    ((append_weighted_average t).getLastD default).val Col.loss
      = PF.div (pdSum (t.map fun r => r.val Col.loss)) (PF.fin ((t.length : ℚ))) := by
  refine ⟨?_, by simp [append_weighted_average], ?_⟩
  · rw [append_weighted_average, getLastD_concat']
    rfl
  · rw [append_weighted_average, getLastD_concat']
    exact weightedCell_scalar t Col.loss (by decide) (by decide)

/-- Evaluation witness for the amended C8. -/
theorem C8_amended_witness :
    (exMixedTable ≠ []) ∧
    ((append_weighted_average exMixedTable).getLastD default).model_name
      = (exMixedTable.headI).model_name := by
  exact ⟨by simp [exMixedTable], (C8_amended_no_validation exMixedTable (by simp [exMixedTable])).1⟩

/-- Claim C10: `append_weighted_average` keeps the input rows unchanged and
in order, appends exactly one `"wt_avg"` row, filters nothing, and is not
idempotent: a second application appends a second `"wt_avg"` row whose
scalar averages divide by `N + 1`, counting the previously appended
derived row as a fold row. -/
theorem C10_append_not_idempotent (t : List Row) :
    (append_weighted_average t).take t.length = t ∧
    (append_weighted_average t).length = t.length + 1 ∧
    ((append_weighted_average t).getLastD default).note = Note.str "wt_avg" ∧
    append_weighted_average (append_weighted_average t) ≠ append_weighted_average t ∧
    ((append_weighted_average (append_weighted_average t)).getLastD default).val Col.loss
      = PF.div (pdSum ((append_weighted_average t).map fun r => r.val Col.loss))
               (PF.fin (((t.length + 1 : ℕ) : ℚ))) := by
  refine ⟨?_, by simp [append_weighted_average], ?_, ?_, ?_⟩
  · rw [append_weighted_average, List.take_left]
  · rw [append_weighted_average, getLastD_concat']
    rfl
  · intro h
    have hlen := congrArg List.length h
    simp [append_weighted_average] at hlen
  · have h2 : append_weighted_average (append_weighted_average t)
        = (append_weighted_average t) ++ [appendedRow (append_weighted_average t)] := rfl
    rw [h2, getLastD_concat']
    show weightedCell (append_weighted_average t) Col.loss = _
    rw [weightedCell_scalar _ Col.loss (by decide) (by decide)]
    congr 2
    simp [append_weighted_average]

/-- Claim C2 is false on the code: the pandas reductions it uses run with
`skipna=True`, so a NaN operand is dropped, not propagated.  Concretely:
a two-fold table whose second fold has NaN `loss` gets appended average
`loss = (1 + 0) / 2 = 1/2` (the NaN fold counted as zero), and two runs
whose second `wt_avg` row has NaN `loss` get grand-mean `loss = 1` (the
NaN run dropped from numerator and count) — neither aggregate is NaN. -/
theorem C2_counterexample :
    exNanRow.val Col.loss = PF.nan ∧ exNanRow ∈ exNanTable ∧
    ((append_weighted_average exNanTable).getLastD default).val Col.loss = PF.fin (1/2) ∧
    exNanWtRow.val Col.loss = PF.nan ∧
    ((combine_several_weighted_averages exNanRunTables).getLastD default).val Col.loss
      = PF.fin 1 := by
  refine ⟨rfl, by simp [exNanTable], ?_, rfl, ?_⟩
  · show weightedCell exNanTable Col.loss = PF.fin (1/2)
    rw [weightedCell_scalar _ _ (by decide) (by decide),
        show exNanTable.map (fun r => r.val Col.loss) = [PF.fin 1, PF.nan] from rfl,
        show pdSum [PF.fin 1, PF.nan] = PF.fin (1 + (0 + 0)) from rfl,
        PF.div_fin _ _ (by norm_num [exNanTable])]
    congr 1
    norm_num [exNanTable]
  · show ((stackedRows exNanRunTables
        ++ [grandRow (stackedRows exNanRunTables)]).getLastD default).val Col.loss = PF.fin 1
    rw [getLastD_concat']
    show pdMean ((stackedRows exNanRunTables).map fun r => r.val Col.loss) = PF.fin 1
    rw [show (stackedRows exNanRunTables).map (fun r => r.val Col.loss)
          = [PF.fin 1, PF.nan] from rfl,
        show pdMean [PF.fin 1, PF.nan]
          = PF.div (pdSum [PF.fin 1, PF.nan]) (PF.fin (((1 : ℕ) : ℚ))) from rfl,
        show pdSum [PF.fin 1, PF.nan] = PF.fin (1 + (0 + 0)) from rfl,
        PF.div_fin _ _ (by norm_num)]
    congr 1
    norm_num

/-- Claim C2 amended: NaN operands are skipped, never propagated.  In
`append_weighted_average` a NaN cell contributes zero to the numerator
while the denominator is unchanged (row count for scalar columns, the
full support sum for class-suffixed columns); in
`combine_several_weighted_averages` the grand mean averages only the
non-NaN entries and is NaN exactly when every stacked entry is NaN. -/
theorem C2_amended_nan_skipped :
    (∀ (t : List Row) (c : Col), t ≠ [] →
       (Col.name c).back ≠ '0' → (Col.name c).back ≠ '1' →
       (∀ r ∈ t, (r.val c).finOrNaN) →
       ((append_weighted_average t).getLastD default).val c
         = PF.fin ((t.map fun r => (r.val c).toRat).sum / ((t.length : ℚ))))
    ∧ (∀ (t : List Row) (c : Col), (Col.name c).back = '0' →
       (∀ r ∈ t, (PF.mul (r.val c) (r.val Col.sup0)).finOrNaN ∧ (r.val Col.sup0).finOrNaN) →
       ((append_weighted_average t).getLastD default).val c
         = PF.div (PF.fin ((t.map fun r => (PF.mul (r.val c) (r.val Col.sup0)).toRat).sum))
                  (PF.fin ((t.map fun r => (r.val Col.sup0).toRat).sum)))
    ∧ (∀ (t : List Row) (c : Col), (Col.name c).back = '1' →
       (∀ r ∈ t, (PF.mul (r.val c) (r.val Col.sup1)).finOrNaN ∧ (r.val Col.sup1).finOrNaN) →
       ((append_weighted_average t).getLastD default).val c
         = PF.div (PF.fin ((t.map fun r => (PF.mul (r.val c) (r.val Col.sup1)).toRat).sum))
                  (PF.fin ((t.map fun r => (r.val Col.sup1).toRat).sum)))
    ∧ (∀ (dfs : List (List Row)) (c : Col),
       (∀ r ∈ stackedRows dfs, (r.val c).finOrNaN) →
       ((combine_several_weighted_averages dfs).getLastD default).val c
         = (if (finPart ((stackedRows dfs).map fun r => r.val c)).length = 0 then PF.nan
            else PF.fin ((finPart ((stackedRows dfs).map fun r => r.val c)).sum
                         / (((finPart ((stackedRows dfs).map fun r => r.val c)).length : ℚ))))) := by
  refine ⟨?_, ?_, ?_, ?_⟩
  · intro t c ht h0 h1 hfin
    rw [append_weighted_average, getLastD_concat']
    show weightedCell t c = _
    rw [weightedCell_scalar t c h0 h1,
        pdSum_finOrNaN _ (by
          intro x hx
          obtain ⟨r, hr, rfl⟩ := List.mem_map.mp hx
          exact hfin r hr),
        PF.div_fin _ _ (length_cast_ne_zero t ht), List.map_map]
    rfl
  · intro t c hc hfin
    rw [append_weighted_average, getLastD_concat']
    show weightedCell t c = _
    rw [weightedCell_suffix0 t c hc]
    congr 1
    · rw [pdSum_finOrNaN _ (by
          intro x hx
          obtain ⟨r, hr, rfl⟩ := List.mem_map.mp hx
          exact (hfin r hr).1), List.map_map]
      rfl
    · rw [pdSum_finOrNaN _ (by
          intro x hx
          obtain ⟨r, hr, rfl⟩ := List.mem_map.mp hx
          exact (hfin r hr).2), List.map_map]
      rfl
  · intro t c hc hfin
    rw [append_weighted_average, getLastD_concat']
    show weightedCell t c = _
    rw [weightedCell_suffix1 t c hc]
    congr 1
    · rw [pdSum_finOrNaN _ (by
          intro x hx
          obtain ⟨r, hr, rfl⟩ := List.mem_map.mp hx
          exact (hfin r hr).1), List.map_map]
      rfl
    · rw [pdSum_finOrNaN _ (by
          intro x hx
          obtain ⟨r, hr, rfl⟩ := List.mem_map.mp hx
          exact (hfin r hr).2), List.map_map]
      rfl
  · intro dfs c hfin
    show ((stackedRows dfs ++ [grandRow (stackedRows dfs)]).getLastD default).val c = _
    rw [getLastD_concat']
    show pdMean ((stackedRows dfs).map fun r => r.val c) = _
    rw [pdMean_finOrNaN _ (by
      intro x hx
      obtain ⟨r, hr, rfl⟩ := List.mem_map.mp hx
      exact hfin r hr)]

/-- Evaluation witness for the amended C2, on the table whose second fold
has NaN `loss`. -/
theorem C2_amended_witness :
    (exNanTable ≠ [] ∧ (Col.name Col.loss).back ≠ '0' ∧ (Col.name Col.loss).back ≠ '1' ∧
      ∀ r ∈ exNanTable, (r.val Col.loss).finOrNaN) ∧
    ((append_weighted_average exNanTable).getLastD default).val Col.loss
      = PF.fin ((exNanTable.map fun r => (r.val Col.loss).toRat).sum / ((exNanTable.length : ℚ))) := by
  have hfin : ∀ r ∈ exNanTable, (r.val Col.loss).finOrNaN := by
    intro r hr
    fin_cases hr <;> exact ⟨by decide, by decide⟩
  exact ⟨⟨by simp [exNanTable], by decide, by decide, hfin⟩,
    C2_amended_nan_skipped.1 exNanTable Col.loss (by simp [exNanTable]) (by decide) (by decide) hfin⟩

theorem stacked_of_single :
    ∀ (dfs : List (List Row)) (n : Nat) (rs : List Row),
      dfs.map (fun df => df.filter fun r => decide (r.note = Note.str "wt_avg"))
        = rs.map (fun r => [r]) →
      ((List.enumFrom n dfs).map fun p => relabelRun p.1 p.2).flatten
        = (List.enumFrom n rs).map
            fun p => { p.2 with note := Note.str (toString (p.1 + 1) ++ "_wt_avg") } := by
  intro dfs
  induction dfs with
  | nil =>
    intro n rs h
    cases rs with
    | nil => rfl
    | cons r rs' => simp at h
  | cons df dfs ih =>
    intro n rs h
    cases rs with
    | nil => simp at h
    | cons r rs' =>
      simp only [List.map_cons, List.cons.injEq] at h
      rw [List.enumFrom_cons, List.enumFrom_cons, List.map_cons, List.map_cons,
          List.flatten_cons]
      rw [show relabelRun (n, df).1 (n, df).2
            = ((df.filter fun r => decide (r.note = Note.str "wt_avg")).map
                fun r => { r with note := Note.str (toString (n + 1) ++ "_wt_avg") }) from rfl,
          h.1]
      simp only [List.map_cons, List.map_nil, List.singleton_append]
      exact congrArg (List.cons _) (ih (n + 1) rs' h.2)

theorem stackedRows_of_single (dfs : List (List Row)) (rs : List Row)
    (h : dfs.map (fun df => df.filter fun r => decide (r.note = Note.str "wt_avg"))
          = rs.map (fun r => [r])) :
    stackedRows dfs = specRelabeledRuns rs :=
  stacked_of_single dfs 0 rs h

theorem enumFrom_getLastD_snd {α : Type} :
    ∀ (l : List α) (x : α) (n : Nat) (d : Nat × α) (e : α),
      (((n, x) :: List.enumFrom (n + 1) l).getLastD d).2 = (x :: l).getLastD e := by
  intro l
  induction l with
  | nil => intro x n d e; rfl
  | cons y l ih =>
    intro x n d e
    rw [List.enumFrom_cons]
    rw [show (((n, x) :: (n + 1, y) :: List.enumFrom (n + 1 + 1) l).getLastD d)
          = (((n + 1, y) :: List.enumFrom (n + 1 + 1) l).getLastD (n, x)) from
        List.getLastD_cons _ _ _]
    rw [show ((x :: y :: l).getLastD e) = ((y :: l).getLastD x) from
        List.getLastD_cons _ _ _]
    exact ih y (n + 1) (n, x) x

/-- Claim C3: given `k` run tables whose `wt_avg` selections are exactly
one row each (`rs`, all-finite through the valuation `v`),
`combine_several_weighted_averages` stacks those rows in input order with
notes relabelled `"{run_index}_wt_avg"` (1-based), and appends one final
`"wt_avg"` row whose `model_name` is copied from the last stacked row and
whose every numeric column is the unweighted arithmetic mean of the `k`
extracted values, independent of each run's fold count. -/
theorem C3_combine_runs (dfs : List (List Row)) (rs : List Row)
    (hsel : dfs.map (fun df => df.filter fun r => decide (r.note = Note.str "wt_avg"))
            = rs.map (fun r => [r]))
    (hne : rs ≠ [])
    (v : Row → Col → ℚ) (hv : ∀ r ∈ rs, ∀ c, r.val c = PF.fin (v r c)) :
    combine_several_weighted_averages dfs = specRelabeledRuns rs ++ [specGrandRow rs v] := by
  have hst := stackedRows_of_single dfs rs hsel
  show stackedRows dfs ++ [grandRow (stackedRows dfs)] = _
  rw [hst]
  congr 1
  congr 1
  cases rs with
  | nil => exact absurd rfl hne
  | cons r0 rs0 =>
    apply Row.eq_of_fields
    · show ((specRelabeledRuns (r0 :: rs0)).getLastD default).model_name
        = ((r0 :: rs0).getLastD default).model_name
      rw [specRelabeledRuns, List.enum_cons,
          getLastD_map_cons (List.enumFrom 1 rs0) (0, r0) _ default (0, default)]
      show (((0, r0) :: List.enumFrom (0 + 1) rs0).getLastD (0, default)).2.model_name = _
      rw [enumFrom_getLastD_snd rs0 r0 0 (0, default) default]
    · rfl
    · intro c
      show pdMean ((specRelabeledRuns (r0 :: rs0)).map fun r => r.val c)
        = PF.fin ((((r0 :: rs0).map fun r => v r c).sum) / (((r0 :: rs0).length : ℚ)))
      have hmap : (specRelabeledRuns (r0 :: rs0)).map (fun r => r.val c)
          = (r0 :: rs0).map fun r => r.val c := by
        rw [specRelabeledRuns, List.map_map]
        have h1 : ∀ p ∈ (r0 :: rs0).enum,
            ((fun r => r.val c) ∘ fun p : Nat × Row =>
              { p.2 with note := Note.str (toString (p.1 + 1) ++ "_wt_avg") }) p
            = ((fun r => r.val c) ∘ Prod.snd) p := fun p _ => rfl
        rw [List.map_congr_left h1, ← List.map_map, List.enum_map_snd]
      rw [hmap, map_val_eq_map_fin (r0 :: rs0) v hv c,
          pdMean_map_fin _ (by simp), List.length_map]

/-- Evaluation witness for C3 on two concrete run tables, each holding one
fold row and one `wt_avg` row. -/
theorem C3_witness :
    (exRunTables.map (fun df => df.filter fun r => decide (r.note = Note.str "wt_avg"))
       = ([exWtRow1, exWtRow2].map fun r => [r])
     ∧ ([exWtRow1, exWtRow2] : List Row) ≠ []
     ∧ ∀ r ∈ ([exWtRow1, exWtRow2] : List Row), ∀ c, r.val c = PF.fin (exV r c)) ∧
    combine_several_weighted_averages exRunTables
      = specRelabeledRuns [exWtRow1, exWtRow2]
        ++ [specGrandRow [exWtRow1, exWtRow2] exV] := by
  have hv : ∀ r ∈ ([exWtRow1, exWtRow2] : List Row), ∀ c, r.val c = PF.fin (exV r c) := by
    intro r hr
    fin_cases hr <;> intro c <;> cases c <;> rfl
  exact ⟨⟨rfl, by simp, hv⟩,
    C3_combine_runs exRunTables [exWtRow1, exWtRow2] rfl (by simp) exV hv⟩

/-- Sanity check of the class-view embedding: each stripped column of the
class-0 view comes from a canonical column whose name does not end in
`'1'` and whose name strips (`remove_end_digit`) to the stripped column's
name; symmetrically for the class-1 view. -/
theorem strip_maps_agree_with_names (c : CCol) :
    remove_end_digit (Col.name (stripTo0 c)) = CCol.name c ∧
    (Col.name (stripTo0 c)).back ≠ '1' ∧
    remove_end_digit (Col.name (stripTo1 c)) = CCol.name c ∧
    (Col.name (stripTo1 c)).back ≠ '0' := by
  cases c <;> refine ⟨by decide, by decide, by decide, by decide⟩

theorem create_single (r : Row) (h : r.note = Note.str "wt_avg") :
    create_metrics_table [[r]]
      = [{ model_name := r.model_name
           loss := r.val Col.loss
           acc := r.val Col.acc
           prec := PF.div (PF.add (r.val Col.prec0) (r.val Col.prec1)) (PF.fin 2)
           recl := PF.div (PF.add (r.val Col.rec0) (r.val Col.rec1)) (PF.fin 2)
           f1sc := PF.div (PF.add (r.val Col.f1sc0) (r.val Col.f1sc1)) (PF.fin 2) }] := by
  rw [create_metrics_table]
  rw [show ([[r]] : List (List Row)).flatten = [r] from by simp]
  rw [List.filter_cons, if_pos (by simp [h])]
  rfl

/-- Claim C5: `create_metrics_table` keeps exactly the `note = "wt_avg"`
rows of the concatenated inputs, in order, and builds per kept row the
summary `model_name, loss, acc` copied plus macro averages
`prec = (prec0 + prec1) / 2` etc. (`create_metrics_table_spec` is that
contract verbatim); consequently two kept rows with identical
`prec0`/`prec1` yield identical `prec` whatever their supports. -/
theorem C5_summary_macro_average :
    (∀ dfs : List (List Row), create_metrics_table dfs = create_metrics_table_spec dfs)
    ∧ (∀ r1 r2 : Row, r1.note = Note.str "wt_avg" → r2.note = Note.str "wt_avg" →
        r1.val Col.prec0 = r2.val Col.prec0 → r1.val Col.prec1 = r2.val Col.prec1 →
        ((create_metrics_table [[r1]]).headD default).prec
          = ((create_metrics_table [[r2]]).headD default).prec) := by
  constructor
  · intro dfs
    rw [create_metrics_table, create_metrics_table_spec]
    generalize dfs.flatten = l
    induction l with
    | nil => rfl
    | cons r l ih =>
      rw [List.filter_cons, List.filterMap_cons]
      by_cases h : r.note = Note.str "wt_avg" <;> simp [h, ih, specSummaryRow]
  · intro r1 r2 h1 h2 hp0 hp1
    rw [create_single r1 h1, create_single r2 h2]
    show PF.div (PF.add (r1.val Col.prec0) (r1.val Col.prec1)) (PF.fin 2)
       = PF.div (PF.add (r2.val Col.prec0) (r2.val Col.prec1)) (PF.fin 2)
    rw [hp0, hp1]

/-- Evaluation witness for C5: two `wt_avg` rows with equal `prec0`/`prec1`
but different supports get the same summary `prec`. -/
theorem C5_witness :
    (exWtRow1.note = Note.str "wt_avg" ∧ exWtRow2b.note = Note.str "wt_avg"
      ∧ exWtRow1.val Col.prec0 = exWtRow2b.val Col.prec0
      ∧ exWtRow1.val Col.prec1 = exWtRow2b.val Col.prec1
      ∧ exWtRow1.val Col.sup0 = PF.fin 10 ∧ exWtRow2b.val Col.sup0 = PF.fin 7
      ∧ (10 : ℚ) ≠ 7) ∧
    create_metrics_table exRunTables = create_metrics_table_spec exRunTables ∧
    ((create_metrics_table [[exWtRow1]]).headD default).prec
      = ((create_metrics_table [[exWtRow2b]]).headD default).prec := by
  exact ⟨⟨rfl, rfl, rfl, rfl, rfl, rfl, by norm_num⟩,
    C5_summary_macro_average.1 exRunTables,
    C5_summary_macro_average.2 exWtRow1 exWtRow2b rfl rfl rfl rfl⟩

theorem weighted_avg_nonfin_ratio (v0 v1 ratio : PF)
    (h : ratio = PF.pinf ∨ ratio = PF.ninf ∨ ratio = PF.nan) :
    (weighted_avg v0 v1 ratio).2 = PF.nan := by
  have : (weighted_avg v0 v1 ratio).2
      = PF.div (PF.add (PF.mul v0 ratio) v1) (PF.add (PF.fin 1) ratio) := rfl
  rw [this]
  rcases h with h | h | h <;> subst h <;> cases v0 <;> cases v1 <;>
    first
    | rfl
    | (show PF.div (PF.add (PF.mul (PF.fin _) _) _) _ = PF.nan
       rw [PF.mul]
       split_ifs <;> rfl)

theorem weighted_avg_macro_fin (a b : ℚ) (v0 v1 : PF)
    (h0 : v0 = PF.fin a) (h1 : v1 = PF.fin b) (ratio : PF) :
    (weighted_avg v0 v1 ratio).1 = PF.fin ((a + b) / 2) := by
  subst h0
  subst h1
  show PF.div (PF.add (PF.fin a) (PF.fin b)) (PF.fin 2) = PF.fin ((a + b) / 2)
  rw [PF.add_fin, PF.div_fin _ _ (by norm_num)]

/-- Claim C6 is false on the code as stated: with `sup0 = 5 > 0` and
`sup1 = 0`, numpy's division yields `+inf`, not the NaN sentinel. -/
theorem C6_counterexample :
    exZeroSup1Row.val Col.sup0 = PF.fin 5 ∧
    exZeroSup1Row.val Col.sup1 = PF.fin 0 ∧
    support_ratio exZeroSup1Row = PF.pinf ∧
    support_ratio exZeroSup1Row ≠ PF.nan := by
  have h : support_ratio exZeroSup1Row = PF.pinf := by
    rw [show support_ratio exZeroSup1Row = PF.div (PF.fin 5) (PF.fin 0) from rfl]
    norm_num [PF.div]
  exact ⟨rfl, rfl, h, by rw [h]; decide⟩

/-- Claim C6 amended: on a single-row input with `sup1 = 0` the
`support_ratio` is NaN only when `sup0` is also `0`; a positive
(negative) `sup0` gives `+inf` (`-inf`).  In every case the `"wt_avg"`
row's cells are all NaN, while each `"macro_avg"` cell with finite class
values `a`, `b` is still `(a + b) / 2`. -/
theorem C6_amended (r : Row) (q0 : ℚ)
    (hs0 : r.val Col.sup0 = PF.fin q0) (hs1 : r.val Col.sup1 = PF.fin 0) :
    (0 < q0 → support_ratio r = PF.pinf) ∧
    (q0 = 0 → support_ratio r = PF.nan) ∧
    (q0 < 0 → support_ratio r = PF.ninf) ∧
    (∀ c : CCol, ((metric_class_averages r).getD 3 default).val c = PF.nan) ∧
    (∀ c : CCol, ∀ a b : ℚ,
       r.val (stripTo0 c) = PF.fin a → r.val (stripTo1 c) = PF.fin b →
       ((metric_class_averages r).getD 2 default).val c = PF.fin ((a + b) / 2)) := by
  have hr : support_ratio r
      = (if 0 < q0 then PF.pinf else if q0 < 0 then PF.ninf else PF.nan) := by
    rw [support_ratio, hs0, hs1]
    simp [PF.div]
  refine ⟨?_, ?_, ?_, ?_, ?_⟩
  · intro h
    rw [hr, if_pos h]
  · intro h
    subst h
    rw [hr]
    norm_num
  · intro h
    rw [hr, if_neg (by linarith), if_pos h]
  · intro c
    show (weighted_avg ((class0Row r).val c) ((class1Row r).val c) (support_ratio r)).2
       = PF.nan
    apply weighted_avg_nonfin_ratio
    rw [hr]
    split_ifs
    · exact Or.inl rfl
    · exact Or.inr (Or.inl rfl)
    · exact Or.inr (Or.inr rfl)
  · intro c a b h0 h1
    show (weighted_avg ((class0Row r).val c) ((class1Row r).val c) (support_ratio r)).1
       = PF.fin ((a + b) / 2)
    exact weighted_avg_macro_fin a b _ _ h0 h1 _

/-- Evaluation witness for the amended C6 (`sup0 = 5`, `sup1 = 0`). -/
theorem C6_amended_witness :
    (exZeroSup1Row.val Col.sup0 = PF.fin 5 ∧ exZeroSup1Row.val Col.sup1 = PF.fin 0
      ∧ (0 : ℚ) < 5) ∧
    support_ratio exZeroSup1Row = PF.pinf ∧
    ((metric_class_averages exZeroSup1Row).getD 3 default).val CCol.prec = PF.nan ∧
    ((metric_class_averages exZeroSup1Row).getD 2 default).val CCol.prec
      = PF.fin ((1 + 1/2) / 2) := by
  exact ⟨⟨rfl, rfl, by norm_num⟩,
    (C6_amended exZeroSup1Row 5 rfl rfl).1 (by norm_num),
    (C6_amended exZeroSup1Row 5 rfl rfl).2.2.2.1 CCol.prec,
    (C6_amended exZeroSup1Row 5 rfl rfl).2.2.2.2 CCol.prec 1 (1/2) rfl rfl⟩

/-- Claim C7: on a single-row input with `sup0 = sup1` (nonzero, so the
support ratio is `1`) and all-finite cells, the `"wt_avg"` row equals the
`"macro_avg"` row on every numeric column of the expanded table. -/
theorem C7_balanced_ratio (r : Row) (s : ℚ) (hs : s ≠ 0)
    (h0 : r.val Col.sup0 = PF.fin s) (h1 : r.val Col.sup1 = PF.fin s)
    (v : Col → ℚ) (hv : ∀ c, r.val c = PF.fin (v c)) :
    ∀ c : CCol, ((metric_class_averages r).getD 3 default).val c
      = ((metric_class_averages r).getD 2 default).val c := by
  intro c
  have hr : support_ratio r = PF.fin 1 := by
    rw [support_ratio, h0, h1, PF.div_fin _ _ hs, div_self hs]
  show (weighted_avg ((class0Row r).val c) ((class1Row r).val c) (support_ratio r)).2
     = (weighted_avg ((class0Row r).val c) ((class1Row r).val c) (support_ratio r)).1
  rw [show (class0Row r).val c = r.val (stripTo0 c) from rfl,
      show (class1Row r).val c = r.val (stripTo1 c) from rfl,
      hv (stripTo0 c), hv (stripTo1 c), hr]
  show PF.div (PF.add (PF.mul (PF.fin (v (stripTo0 c))) (PF.fin 1)) (PF.fin (v (stripTo1 c))))
        (PF.add (PF.fin 1) (PF.fin 1))
     = PF.div (PF.add (PF.fin (v (stripTo0 c))) (PF.fin (v (stripTo1 c)))) (PF.fin 2)
  rw [show PF.mul (PF.fin (v (stripTo0 c))) (PF.fin 1)
        = PF.fin (v (stripTo0 c) * 1) from rfl,
      PF.add_fin, PF.add_fin, PF.add_fin,
      PF.div_fin _ _ (by norm_num), PF.div_fin _ _ (by norm_num)]
  congr 1
  ring

/-- Evaluation witness for C7 on a row with `sup0 = sup1 = 4`. -/
theorem C7_witness :
    ((4 : ℚ) ≠ 0 ∧ exBalancedRow.val Col.sup0 = PF.fin 4
      ∧ exBalancedRow.val Col.sup1 = PF.fin 4
      ∧ ∀ c, exBalancedRow.val c = PF.fin ((exBalancedRow.val c).toRat)) ∧
    ∀ c : CCol, ((metric_class_averages exBalancedRow).getD 3 default).val c
      = ((metric_class_averages exBalancedRow).getD 2 default).val c := by
  have hv : ∀ c, exBalancedRow.val c = PF.fin ((exBalancedRow.val c).toRat) := by
    intro c
    cases c <;> rfl
  exact ⟨⟨by norm_num, rfl, rfl, hv⟩,
    C7_balanced_ratio exBalancedRow 4 (by norm_num) rfl rfl
      (fun c => (exBalancedRow.val c).toRat) hv⟩

theorem HExt.refl (h : Heap) : HExt h h := ⟨le_refl _, fun _ _ => rfl⟩

theorem HExt.alloc {h0 h : Heap} (e : HExt h0 h) (t : Tab) : HExt h0 (allocTab h t).1 := by
  constructor
  · show h0.length ≤ (h ++ [t]).length
    rw [List.length_append]
    exact le_trans e.1 (by simp)
  · intro n hn
    show readTab (h ++ [t]) n = readTab h0 n
    rw [← e.2 n hn]
    unfold readTab
    exact List.getD_append _ _ _ _ (lt_of_lt_of_le hn e.1)

theorem HExt.write {h0 h : Heap} (e : HExt h0 h) (j : Nat) (hj : h0.length ≤ j) (t : Tab) :
    HExt h0 (writeTab h j t) := by
  constructor
  · show h0.length ≤ (h.set j t).length
    rw [List.length_set]
    exact e.1
  · intro n hn
    show readTab (h.set j t) n = readTab h0 n
    rw [← e.2 n hn]
    unfold readTab
    rw [List.getD_eq_getElem?_getD, List.getD_eq_getElem?_getD,
        List.getElem?_set_ne (by omega)]

/-- Allocating a frame and writing in place to that same fresh frame
leaves every pre-existing slot unchanged. -/
theorem HExt.alloc_write {h0 h : Heap} (e : HExt h0 h) (t t' : Tab) :
    HExt h0 (writeTab (allocTab h t).1 (allocTab h t).2 t') :=
  (e.alloc t).write _ e.1 t'

theorem combine_step_hext {h0 : Heap} (acc : Heap × List Nat) (p : Nat × Nat)
    (e : HExt h0 acc.1) : HExt h0 (combine_step acc p).1 := by
  unfold combine_step
  dsimp only
  exact e.alloc_write _ _

theorem combine_foldl_hext (h0 : Heap) :
    ∀ (l : List (Nat × Nat)) (acc : Heap × List Nat),
      HExt h0 acc.1 → HExt h0 (l.foldl combine_step acc).1 := by
  intro l
  induction l with
  | nil => intro acc e; exact e
  | cons p l ih =>
    intro acc e
    rw [List.foldl_cons]
    exact ih _ (combine_step_hext acc p e)

theorem append_st_hext (h : Heap) (i : Nat) :
    HExt h (append_weighted_average_st h i).1
      ∧ h.length ≤ (append_weighted_average_st h i).2 := by
  unfold append_weighted_average_st
  dsimp only
  constructor
  · exact (((HExt.refl h).alloc _).alloc _).alloc _
  · exact (((HExt.refl h).alloc _).alloc _).1

theorem combine_st_hext (h : Heap) (ids : List Nat) :
    HExt h (combine_several_weighted_averages_st h ids).1
      ∧ h.length ≤ (combine_several_weighted_averages_st h ids).2 := by
  unfold combine_several_weighted_averages_st
  dsimp only
  have e := combine_foldl_hext h ids.enum (h, []) (HExt.refl h)
  constructor
  · exact (e.alloc _).alloc _
  · exact (e.alloc _).1

theorem create_st_hext (h : Heap) (ids : List Nat) :
    HExt h (create_metrics_table_st h ids).1
      ∧ h.length ≤ (create_metrics_table_st h ids).2 := by
  unfold create_metrics_table_st
  dsimp only
  constructor
  · exact ((((HExt.refl h).alloc _).alloc _).alloc_write _ _).alloc _
  · exact ((((HExt.refl h).alloc _).alloc _).alloc_write _ _).1

theorem class_st_hext (h : Heap) (i : Nat) :
    HExt h (metric_class_averages_st h i).1
      ∧ h.length ≤ (metric_class_averages_st h i).2 := by
  unfold metric_class_averages_st
  dsimp only
  constructor
  · exact ((((((HExt.refl h).alloc _).alloc_write _ _).alloc_write _ _).alloc _).alloc_write
      _ _).alloc _
  · exact ((((((HExt.refl h).alloc _).alloc_write _ _).alloc_write _ _).alloc _).alloc_write
      _ _).1

/-- Claim C9: each of the four traced aggregation operations returns a
freshly allocated frame (its id is outside the input store) and leaves
every frame that existed before the call unchanged — every in-place
pandas write in the source lands on a frame the operation itself
allocated. -/
theorem C9_operations_do_not_mutate_inputs (h : Heap) (i : Nat) (ids : List Nat)
    (n : Nat) (hn : n < h.length) :
    (readTab (append_weighted_average_st h i).1 n = readTab h n
      ∧ h.length ≤ (append_weighted_average_st h i).2) ∧
    (readTab (combine_several_weighted_averages_st h ids).1 n = readTab h n
      ∧ h.length ≤ (combine_several_weighted_averages_st h ids).2) ∧
    (readTab (create_metrics_table_st h ids).1 n = readTab h n
      ∧ h.length ≤ (create_metrics_table_st h ids).2) ∧
    (readTab (metric_class_averages_st h i).1 n = readTab h n
      ∧ h.length ≤ (metric_class_averages_st h i).2) :=
  ⟨⟨(append_st_hext h i).1.2 n hn, (append_st_hext h i).2⟩,
   ⟨(combine_st_hext h ids).1.2 n hn, (combine_st_hext h ids).2⟩,
   ⟨(create_st_hext h ids).1.2 n hn, (create_st_hext h ids).2⟩,
   ⟨(class_st_hext h i).1.2 n hn, (class_st_hext h i).2⟩⟩

/-- Evaluation witness for C9 on a concrete two-frame store. -/
theorem C9_witness :
    (0 < exHeap.length) ∧
    readTab (append_weighted_average_st exHeap 0).1 0 = readTab exHeap 0 ∧
    readTab (combine_several_weighted_averages_st exHeap [1]).1 0 = readTab exHeap 0 ∧
    readTab (create_metrics_table_st exHeap [1]).1 0 = readTab exHeap 0 ∧
    readTab (metric_class_averages_st exHeap 0).1 0 = readTab exHeap 0 ∧
    exHeap.length ≤ (append_weighted_average_st exHeap 0).2 := by
  have h := C9_operations_do_not_mutate_inputs exHeap 0 [1] 0 (by decide)
  exact ⟨by decide, h.1.1, h.2.1.1, h.2.2.1.1, h.2.2.2.1, h.1.2⟩
